import Mathlib

/-!
# Verification of the yaral rate-limiting middleware core

Shallow embedding of the yaral plugin (bucket matching, route resolution,
admission and settlement coordination, the `all` fan-in helper and the
timeout wrapper) together with proofs of the specified properties.

Sources embedded:
* `src/bucket.ts` — `codeMatches`, `Bucket` (matches / headers / identify,
  construction defaults);
* `src/util.js` — `all`, the parallel fan-in helper;
* `src/yaral.ts` — `resolveRouteOpts`, `matchBucket`, `addHeaders`,
  `createTimeout`, `handleError`, `rateLimitResolve`, `preResponseResolve`
  and the two `server.ext` handlers.
-/

namespace Yaral

/-! ## Header values

Response header maps in the source have type `{ [key: string]: string | number }`. -/

inductive HVal where
  | str (s : String)
  | int (n : Int)
deriving DecidableEq, Repr

/-! ## `codeMatches` (src/bucket.ts, lines 18–26)

The JS loop reads `pattern[k]` / `code[k]`, which yield `undefined` past the
end of the string; we model a character access as `Option Char`, where
`none` plays the role of `undefined` (and JS `!==` is `Option` inequality). -/

/-- One iteration of the `codeMatches` loop: position `k` passes unless
`pattern[k] !== 'x' && code[k] !== pattern[k]`. -/
def codeMatchesAt (pattern code : String) (k : Nat) : Bool :=
  !((pattern.toList.get? k != some 'x') && (code.toList.get? k != pattern.toList.get? k))

/-- Embedding of `codeMatches(pattern, code)` from src/bucket.ts: the loop runs `k = 0, 1, 2`
and returns `false` as soon as one position fails. -/
def codeMatches (pattern code : String) : Bool :=
  codeMatchesAt pattern code 0 && codeMatchesAt pattern code 1 && codeMatchesAt pattern code 2

/-! ## Bucket (src/bucket.ts) -/

/-- The bucket `mode` (`'interval' | 'continuous'`, as validated by the Joi
schema; `this.mode = options.mode || 'interval'`). -/
inductive Mode where
  | interval
  | continuous
deriving DecidableEq, Repr

/-- Data passed to `Bucket.headers` by a successful `limitus.drop()` callback:
`{ bucket: string; count: number }`. -/
structure DropData where
  bucket : String
  count : Int
deriving DecidableEq, Repr

/-- A constructed `Bucket` (src/bucket.ts).  `Req` is the type of requests and
`Id` the type of identities returned by the configured `id` function. -/
structure Bucket (Req Id : Type) where
  name : String
  max : Int
  interval : Int
  mode : Mode
  idFn : Req → Id
  codes : List String

/-- Constructor options for a bucket (`IBucketOptions`): `mode` and `codes`
are optional. -/
structure BucketOptions (Req Id : Type) where
  name : String
  max : Int
  interval : Int
  mode : Option Mode
  id : Req → Id
  codes : Option (List String)

/-- The `Bucket` constructor: `options.codes = options.codes || ['2xx', '3xx']`
and `this.mode = options.mode || 'interval'`. -/
def Bucket.make {Req Id : Type} (o : BucketOptions Req Id) : Bucket Req Id :=
  { name := o.name
    max := o.max
    interval := o.interval
    mode := o.mode.getD Mode.interval
    idFn := o.id
    codes := o.codes.getD ["2xx", "3xx"] }

/-- The loop body of `Bucket.matches`: scan `codes` first to last, returning
`true` at the first pattern that matches the target string. -/
def matchesLoop (codes : List String) (target : String) : Bool :=
  match codes with
  | [] => false
  | c :: rest => if codeMatches c target then true else matchesLoop rest target

/-- Embedding of `Bucket.matches(status)` (src/bucket.ts): `const target = String(status)`,
then scan `this.options.codes`. -/
def Bucket.matches {Req Id : Type} (b : Bucket Req Id) (status : Nat) : Bool :=
  matchesLoop b.codes (toString status)

/-- Embedding of `Bucket.identify(req)`: delegates to the configured `id` function. -/
def Bucket.identify {Req Id : Type} (b : Bucket Req Id) (req : Req) : Id :=
  b.idFn req

/-- Embedding of `Bucket.headers(data)` (src/bucket.ts): always `X-Rate-Limit: max`; in
`interval` mode additionally `X-RateLimit-Remaining: Math.max(max - count, 0)`
and `X-RateLimit-Reset: data.bucket`. -/
def Bucket.headers {Req Id : Type} (b : Bucket Req Id) (data : DropData) :
    List (String × HVal) :=
  [("X-Rate-Limit", HVal.int b.max)] ++
    (if b.mode = Mode.interval then
      [("X-RateLimit-Remaining", HVal.int (Max.max (b.max - data.count) 0)),
       ("X-RateLimit-Reset", HVal.str data.bucket)]
    else [])

/-! ## `all` (src/util.js)

`all(fns, callback)` starts every task and wires a shared completion handler:

```
let todo = fns.length;
const cb = function (err) {
    if (err) { todo = -1; return callback.apply(this, arguments); }
    todo--;
    if (todo === 0) { callback(); }
};
```

Each task eventually invokes `cb(err, data, name)` exactly once; the order of
those invocations is scheduling-dependent.  We model a run of `all` by the
list of completions in completion order and compute the list of invocations
of the final `callback`: `none` for the argument-less success call,
`some (err, data, name)` for a failure call. -/

/-- One task completion: the arguments `(err, data, name)` the task passes to
the shared handler (`err = none` on success). -/
structure Completion (E D : Type) where
  err : Option E
  data : D
  name : String
deriving DecidableEq, Repr

/-- Returns `some (e, data, name)` when the completion is a failure. -/
def failArgs {E D : Type} (c : Completion E D) : Option (E × D × String) :=
  c.err.map fun e => (e, c.data, c.name)

/-- Whether a completion succeeded (`err` falsy). -/
def isOkC {E D : Type} (c : Completion E D) : Bool :=
  c.err.isNone

/-- The failure invocations of the final callback induced by a completion
sequence: one call, carrying the failure's arguments, per failing completion,
in completion order. -/
def failCalls {E D : Type} (evs : List (Completion E D)) :
    List (Option (E × D × String)) :=
  evs.filterMap fun c => (failArgs c).map some

/-- The invocations of `all`'s final `callback` produced by processing the
given completions starting from counter value `todo`. -/
def allRun {E D : Type} (todo : Int) : List (Completion E D) → List (Option (E × D × String))
  | [] => []
  | c :: rest =>
    match c.err with
    | some e => some (e, c.data, c.name) :: allRun (-1) rest
    | none => (if todo - 1 = 0 then [none] else []) ++ allRun (todo - 1) rest

/-- A full run of `all` over `n` started tasks (`todo` initialised to
`fns.length`). -/
def allCalls {E D : Type} (n : Nat) (evs : List (Completion E D)) :
    List (Option (E × D × String)) :=
  allRun (n : Int) evs

/-! ## `createTimeout` (src/yaral.ts, lines 266–286)

```
const createTimeout = (callback) => {
  if (!options.timeout.enabled) { return callback; }
  let timeout = setTimeout(() => { callback(new TimeoutError(...), null); timeout = null; },
                           options.timeout.timeout);
  return (err, data) => {
    clearTimeout(timeout);
    if (timeout !== null) { callback(err, data); timeout = null; }
  };
};
```

We model a run of the wrapper as a state machine over the two mutable facts:
whether the `timeout` variable is non-null (`armed`) and whether the runtime
timer is still scheduled (`scheduled`).  Events are the deadline firing and
invocations of the returned function by the wrapped call's completion. -/

/-- Wrapper state: `armed` is `timeout !== null`, `scheduled` is whether the
`setTimeout` timer is still pending (a fired or cleared timer cannot fire). -/
structure TState where
  armed : Bool
  scheduled : Bool
deriving DecidableEq, Repr

/-- Events a wrapper instance can observe: the deadline fires, or the wrapped
call completes with `(err, data)`. -/
inductive TEvent (E D : Type) where
  | fire
  | complete (err : Option E) (data : D)
deriving DecidableEq, Repr

/-- One step of the wrapper.  `tmErr` is the `TimeoutError` value and `nullD`
the `null` data passed alongside it.  Returns the successor state and the
invocation of the caller's continuation this event produced, if any.  A
`fire` event is a no-op unless the timer is still scheduled. -/
def stepTimeout {E D : Type} (tmErr : E) (nullD : D) (s : TState) :
    TEvent E D → TState × Option (Option E × D)
  | TEvent.fire =>
    if s.scheduled then (⟨false, false⟩, some (some tmErr, nullD))
    else (⟨s.armed, false⟩, none)
  | TEvent.complete err data =>
    (⟨false, false⟩, if s.armed then some (err, data) else none)

/-- The continuation invocations produced by processing an event trace. -/
def runTimeout {E D : Type} (tmErr : E) (nullD : D) (s : TState) :
    List (TEvent E D) → List (Option E × D)
  | [] => []
  | e :: rest =>
    let out := stepTimeout tmErr nullD s e
    out.2.toList ++ runTimeout tmErr nullD out.1 rest

/-- The continuation invocations of `createTimeout(callback)`: when timeouts
are enabled, a fresh armed wrapper processes the trace; when disabled the
original `callback` is returned unmodified, so every completion invokes it
directly and there is no timer to fire. -/
def createTimeoutRun {E D : Type} (enabled : Bool) (tmErr : E) (nullD : D)
    (evs : List (TEvent E D)) : List (Option E × D) :=
  if enabled then runTimeout tmErr nullD ⟨true, true⟩ evs
  else evs.filterMap fun e =>
    match e with
    | TEvent.fire => none
    | TEvent.complete err data => some (err, data)

/-! ## Plugin configuration and route resolution (src/yaral.ts) -/

/-- The reply interface outcomes the handlers produce: `reply.continue()` or
`reply(tooManyRequests())` carrying the 429 response's headers. -/
inductive ReplyAction where
  | cont
  | respond429 (headers : List (String × HVal))
deriving DecidableEq, Repr

/-- The global plugin options consumed by the handlers (after defaulting):
`default`, `includeHeaders`, `exclude`, and the timeout configuration
(`timeout.enabled`; `timeout.ontimeout` is an arbitrary reply-consuming
function, modelled by the `ReplyAction` it produces — the default is
`reply => reply.continue()`). -/
structure Config (Req : Type) where
  default : List String
  includeHeaders : Bool
  exclude : Req → Bool
  timeoutEnabled : Bool
  ontimeoutReply : ReplyAction

/-- The object form of per-route yaral configuration (`IYaralRouteOptions`):
all fields optional, absent fields leave the normalized defaults in place. -/
structure RouteObjOpts (Req : Type) where
  buckets : Option (List String)
  enabled : Option Bool
  exclude : Option (Req → Bool)

/-- Per-route yaral configuration: absent, a single bucket name, an array of
bucket names, or the object form. -/
inductive RouteConfig (Req : Type) where
  | absent
  | single (name : String)
  | list (names : List String)
  | obj (o : RouteObjOpts Req)

/-- The result of `resolveRouteOpts`. -/
structure ResolvedOpts (Req : Type) where
  enabled : Bool
  buckets : List String
  exclude : Req → Bool

/-- Embedding of `resolveRouteOpts(req)` (src/yaral.ts, lines 198–232): normalize to
`{enabled: true, buckets: [], exclude: () => false}`, overlay the route's
shorthand or object configuration, then — if still enabled — append the
global `default` list and recompute `enabled` from the exclusion predicates
and the bucket count (note the source counts `options.default` a second
time on top of the already-concatenated list). -/
def resolveRouteOpts {Req : Type} (cfg : Config Req) (route : RouteConfig Req)
    (req : Req) : ResolvedOpts Req :=
  let base : ResolvedOpts Req := ⟨true, [], fun _ => false⟩
  let opts : ResolvedOpts Req :=
    match route with
    | RouteConfig.absent => base
    | RouteConfig.single s => { base with buckets := [s] }
    | RouteConfig.list l => { base with buckets := l }
    | RouteConfig.obj o =>
      ⟨o.enabled.getD base.enabled, o.buckets.getD base.buckets,
        o.exclude.getD base.exclude⟩
  if opts.enabled then
    let bs := opts.buckets ++ cfg.default
    ⟨!(cfg.exclude req || opts.exclude req) &&
        decide (bs.length + cfg.default.length > 0),
      bs, opts.exclude⟩
  else opts

/-- Statement helper: the bucket list contributed by the route configuration
itself (before the global defaults are appended). -/
def routeBucketsOf {Req : Type} (route : RouteConfig Req) : List String :=
  match route with
  | RouteConfig.absent => []
  | RouteConfig.single s => [s]
  | RouteConfig.list l => l
  | RouteConfig.obj o => o.buckets.getD []

/-- Statement helper: whether the route configuration left limiting enabled
(only the object form can set `enabled: false`). -/
def routeEnabledOf {Req : Type} (route : RouteConfig Req) : Bool :=
  match route with
  | RouteConfig.obj o => o.enabled.getD true
  | _ => true

/-- Statement helper: the route-level exclusion predicate. -/
def routeExcludeOf {Req : Type} (route : RouteConfig Req) : Req → Bool :=
  match route with
  | RouteConfig.obj o => o.exclude.getD fun _ => false
  | _ => fun _ => false

/-! ## The admission (pre-auth) handler -/

/-- The Request Limiting State attached as `req.plugins.yaral`. -/
structure Info (Id : Type) where
  buckets : List String
  ids : List Id
  limited : Bool

/-- Embedding of `opts.buckets.map(b => buckets[b].identify(req))`: the per-name registry
lookup yields `undefined` for an unconfigured name and the `.identify` call
on it throws, modelled as `Except.error`. -/
def computeIds {Req Id : Type} (registry : String → Option (Bucket Req Id))
    (req : Req) : List String → Except Unit (List Id)
  | [] => Except.ok []
  | n :: rest =>
    match registry n with
    | none => Except.error ()
    | some b => (computeIds registry req rest).map fun ids => b.identify req :: ids

/-- The `server.ext(options.event, ...)` handler up to the point where the
concurrent checks are issued: resolve the route options; if not enabled,
continue with no state attached (`Except.ok none`); otherwise compute the
identities, attach the Request Limiting State with `limited := false`, and
issue one `checkLimited` call per bucket/identity pair. -/
def phase1Handler {Req Id : Type} (registry : String → Option (Bucket Req Id))
    (cfg : Config Req) (route : RouteConfig Req) (req : Req) :
    Except Unit (Option (Info Id)) :=
  let opts := resolveRouteOpts cfg route req
  if opts.enabled = false then Except.ok none
  else
    match computeIds registry req opts.buckets with
    | Except.error e => Except.error e
    | Except.ok ids => Except.ok (some ⟨opts.buckets, ids, false⟩)

/-- Embedding of `addHeaders` (src/yaral.ts, lines 260–264): the headers actually merged
into the response — all of them when `includeHeaders`, none otherwise. -/
def addHeaders {Req : Type} (cfg : Config Req) (headers : List (String × HVal)) :
    List (String × HVal) :=
  if cfg.includeHeaders then headers else []

/-- The classes of `Error` distinguished by `handleError`: `TimeoutError`,
`Limitus.Rejected`, and everything else (infrastructure faults). -/
inductive HandledErr where
  | timedOut
  | rejected
  | infra
deriving DecidableEq, Repr

/-- Embedding of `handleError(err, reply)` (src/yaral.ts, lines 289–303): a `TimeoutError`
is handed to `options.timeout.ontimeout`; any other non-`Rejected` error is
logged; in both of the latter cases the request continues.  Returns the
reply action and whether the error was logged. -/
def handleError {Req : Type} (cfg : Config Req) (e : HandledErr) :
    ReplyAction × Bool :=
  match e with
  | HandledErr.timedOut => (cfg.ontimeoutReply, false)
  | HandledErr.rejected => (ReplyAction.cont, false)
  | HandledErr.infra => (ReplyAction.cont, true)

/-- The `(err, data)` outcomes a phase-1 check callback can observe:
success, `Limitus.Rejected` (whose `data.bucket` carries the reset token),
the wrapper's `TimeoutError`, or any other internal error. -/
inductive CheckCb where
  | ok
  | rejected (resetBucket : String)
  | timedOut
  | infra
deriving DecidableEq, Repr

/-- What one invocation of `rateLimitResolve` does: the reply action, the
updated `limited` flag, whether an error was logged, and whether `onPass` /
`onLimit` were called. -/
structure Phase1Resolve where
  reply : ReplyAction
  limited : Bool
  logged : Bool
  onPassCalled : Bool
  onLimitCalled : Bool
deriving DecidableEq, Repr

/-- Embedding of `rateLimitResolve` (src/yaral.ts, lines 305–333).  `onLimitCancels` is
whether `options.onLimit(req, data, name)` returns the `cancel` sentinel;
`limitedIn` is the current `info.limited` value. -/
def rateLimitResolve {Req : Type} (cfg : Config Req) (onLimitCancels : Bool)
    (cb : CheckCb) (limitedIn : Bool) : Phase1Resolve :=
  match cb with
  | CheckCb.ok => ⟨ReplyAction.cont, limitedIn, false, true, false⟩
  | CheckCb.timedOut =>
    let h := handleError cfg HandledErr.timedOut
    ⟨h.1, limitedIn, h.2, false, false⟩
  | CheckCb.infra =>
    let h := handleError cfg HandledErr.infra
    ⟨h.1, limitedIn, h.2, false, false⟩
  | CheckCb.rejected rb =>
    if onLimitCancels then ⟨ReplyAction.cont, limitedIn, false, false, true⟩
    else
      ⟨ReplyAction.respond429 (addHeaders cfg
          [("X-RateLimit-Remaining", HVal.int 0), ("X-RateLimit-Reset", HVal.str rb)]),
        true, false, false, true⟩

/-! ## The settlement (onPreResponse) handler -/

/-- Embedding of `matchBucket(info, res)` (src/yaral.ts, lines 240–255): scan
`info.buckets` in order; a name missing from the registry makes the
`bucket.matches` access throw (`Except.error`); the first bucket matching
the status code is returned together with `info.ids[i]` (which is
`undefined`, i.e. `none`, when `ids` is shorter). -/
def matchBucket {Req Id : Type} (registry : String → Option (Bucket Req Id))
    (status : Nat) : List String → List Id →
    Except Unit (Option (Bucket Req Id × Option Id))
  | [], _ => Except.ok none
  | n :: rest, ids =>
    match registry n with
    | none => Except.error ()
    | some b =>
      if b.matches status then Except.ok (some (b, ids.head?))
      else matchBucket registry status rest ids.tail

/-- The `(err, data)` outcomes of the `limitus.drop` callback in phase 2. -/
inductive DropCb where
  | ok (data : DropData)
  | rejected
  | timedOut
  | infra
deriving DecidableEq, Repr

/-- What one invocation of `preResponseResolve` does. -/
structure Phase2Resolve where
  reply : ReplyAction
  added : List (String × HVal)
  logged : Bool
deriving DecidableEq, Repr

/-- Embedding of `preResponseResolve` (src/yaral.ts, lines 363–371): errors go to
`handleError`; on success the bucket's headers are merged (via `addHeaders`)
and the response continues. -/
def preResponseResolve {Req Id : Type} (cfg : Config Req) (b : Bucket Req Id) :
    DropCb → Phase2Resolve
  | DropCb.ok data => ⟨ReplyAction.cont, addHeaders cfg (b.headers data), false⟩
  | DropCb.rejected =>
    let h := handleError cfg HandledErr.rejected
    ⟨h.1, [], h.2⟩
  | DropCb.timedOut =>
    let h := handleError cfg HandledErr.timedOut
    ⟨h.1, [], h.2⟩
  | DropCb.infra =>
    let h := handleError cfg HandledErr.infra
    ⟨h.1, [], h.2⟩

/-- Everything one run of the `onPreResponse` handler does: the `drop` calls
issued (name and identity), the headers merged into the response, the reply
action, and whether an error was logged. -/
structure Phase2Run (Id : Type) where
  drops : List (String × Option Id)
  added : List (String × HVal)
  reply : ReplyAction
  logged : Bool
deriving DecidableEq, Repr

/-- The `server.ext('onPreResponse', ...)` handler (src/yaral.ts, lines
373–383).  `state` is `req.plugins.yaral`; `dropCb` gives the outcome the
(timeout-wrapped) `limitus.drop` callback observes for a given call.  The
source computes `matchBucket` first and then checks `!opts ||
req.plugins.yaral.limited`. -/
def onPreResponse {Req Id : Type} (registry : String → Option (Bucket Req Id))
    (cfg : Config Req) (state : Option (Info Id)) (status : Nat)
    (dropCb : String → Option Id → DropCb) : Except Unit (Phase2Run Id) :=
  match state with
  | none => Except.ok ⟨[], [], ReplyAction.cont, false⟩
  | some info =>
    match matchBucket registry status info.buckets info.ids with
    | Except.error e => Except.error e
    | Except.ok none => Except.ok ⟨[], [], ReplyAction.cont, false⟩
    | Except.ok (some (b, oid)) =>
      if info.limited then Except.ok ⟨[], [], ReplyAction.cont, false⟩
      else
        let r := preResponseResolve cfg b (dropCb b.name oid)
        Except.ok ⟨[(b.name, oid)], r.added, r.reply, r.logged⟩

/-- Modelled from the spec: the settlement selection rule in its own words —
"scan the resolved bucket list in order; select the first bucket whose
`matches(responseStatusCode)` is true, pairing it with its corresponding
identity (same index)".  Used to compare `matchBucket` against the spec. -/
def specSettle {Req Id : Type} (pairs : List (Bucket Req Id × Id)) (status : Nat) :
    Option (Bucket Req Id × Id) :=
  pairs.find? fun p => p.1.matches status

/-- The defaulted global options over `Nat`-requests: `default: []`,
`includeHeaders: true`, `exclude: () => false`, timeouts enabled with
`ontimeout: reply => reply.continue()`.  Used to instantiate witnesses. -/
def defaultConfig : Config Nat :=
  ⟨[], true, fun _ => false, true, ReplyAction.cont⟩

/-- A concrete bucket (`{ name: 'a', interval: 1000, max: 2 }` with the
defaulted mode and codes), used to instantiate witnesses. -/
def bucketA : Bucket Nat Nat :=
  ⟨"a", 2, 1000, Mode.interval, fun r => r, ["2xx", "3xx"]⟩

/-- A registry holding only `bucketA`, used to instantiate witnesses. -/
def registryA : String → Option (Bucket Nat Nat) :=
  fun n => if n = "a" then some bucketA else none

/-- A configuration whose global `default` names a bucket `"g"` that is never
registered, used to instantiate witnesses. -/
def ghostConfig : Config Nat :=
  ⟨["g"], true, fun _ => false, true, ReplyAction.cont⟩

/-- The route configuration `{enabled: false}`, used to instantiate
witnesses. -/
def disabledRoute : RouteConfig Nat :=
  RouteConfig.obj ⟨none, some false, none⟩

end Yaral

namespace Yaral

/-! ## C5: the wildcard matching rule -/

/-- Helper fact: a 3-position universally quantified property is the
conjunction of its instances. -/
theorem forallLtThree {P : Nat → Prop} :
    (∀ k, k < 3 → P k) ↔ P 0 ∧ P 1 ∧ P 2 := by
  constructor
  · intro h
    exact ⟨h 0 (by omega), h 1 (by omega), h 2 (by omega)⟩
  · rintro ⟨h0, h1, h2⟩ k hk
    interval_cases k
    · exact h0
    · exact h1
    · exact h2

/-- Lemma: `codeMatchesAt` unfolded as a disjunction, for length-3 patterns. -/
theorem codeMatchesAt_eq_true_iff (pattern code : String) (k : Nat)
    (hk : k < pattern.toList.length) :
    codeMatchesAt pattern code k = true ↔
      pattern.toList.get? k = some 'x' ∨ pattern.toList.get? k = code.toList.get? k := by
  unfold codeMatchesAt
  rcases h : pattern.toList.get? k with _ | a
  · rw [List.get?_eq_none] at h
    omega
  · simp [h, bne]
    tauto

/-- The `Bucket.matches` scan succeeds iff some configured pattern matches. -/
theorem matchesLoop_eq_true_iff (codes : List String) (target : String) :
    matchesLoop codes target = true ↔ ∃ c ∈ codes, codeMatches c target = true := by
  induction codes with
  | nil => simp [matchesLoop]
  | cons c rest ih =>
    by_cases h : codeMatches c target = true
    · simp [matchesLoop, h]
    · simp only [matchesLoop, if_neg h, ih]
      simp only [List.mem_cons]
      constructor
      · rintro ⟨q, hq, hm⟩
        exact ⟨q, Or.inr hq, hm⟩
      · rintro ⟨q, hq | hq, hm⟩
        · exact absurd hm (hq ▸ h)
        · exact ⟨q, hq, hm⟩

/-- C5.  For every 3-character pattern `p` over `[0-9x]` and every 3-digit
status code `c`, `codeMatches` reports a match iff each of the 3 positions of
`p` is `'x'` or equals the corresponding digit of the string form of `c`;
`Bucket.matches` is true iff some entry of the bucket's `codes` matches under
this rule; and `codes` defaults to `['2xx', '3xx']` when not given. -/
theorem codeMatches_wildcard_rule (p : String) (c : Nat)
    (hlen : p.toList.length = 3)
    (hchars : ∀ ch ∈ p.toList, ch = 'x' ∨ ch.isDigit)
    (hc : 100 ≤ c ∧ c ≤ 999) :
    (codeMatches p (toString c) = true ↔
      ∀ k, k < 3 →
        p.toList.get? k = some 'x' ∨ p.toList.get? k = (toString c).toList.get? k) ∧
    (∀ (Req Id : Type) (b : Bucket Req Id),
      b.matches c = true ↔ ∃ q ∈ b.codes, codeMatches q (toString c) = true) ∧
    (∀ (Req Id : Type) (o : BucketOptions Req Id), o.codes = none →
      (Bucket.make o).codes = ["2xx", "3xx"]) := by
  refine ⟨?_, ?_, ?_⟩
  · rw [forallLtThree]
    unfold codeMatches
    rw [Bool.and_eq_true, Bool.and_eq_true]
    rw [codeMatchesAt_eq_true_iff p _ 0 (by omega),
        codeMatchesAt_eq_true_iff p _ 1 (by omega),
        codeMatchesAt_eq_true_iff p _ 2 (by omega)]
    tauto
  · intro Req Id b
    exact matchesLoop_eq_true_iff b.codes (toString c)
  · intro Req Id o h
    simp [Bucket.make, h]

/-! ## C1: the fan-in aggregation of `all` -/

/-- Once a failure has been observed (`todo` forced non-positive), successes
can never bring the counter back to `0`, so the only further invocations of
the final callback are the failure calls themselves. -/
theorem allRun_nonpos {E D : Type} (evs : List (Completion E D)) :
    ∀ todo : Int, todo ≤ 0 → allRun todo evs = failCalls evs := by
  induction evs with
  | nil => intro todo _; rfl
  | cons c rest ih =>
    intro todo htodo
    obtain ⟨ce, cd, cn⟩ := c
    rcases ce with _ | e
    · have h1 : ¬(todo - 1 = 0) := by omega
      simp [allRun, failCalls, failArgs, h1] at ih ⊢
      exact ih (todo - 1) (by omega)
    · simp [allRun, failCalls, failArgs] at ih ⊢
      exact ih (-1) (by omega)

/-- Characterization of `allRun` for a positive counter that covers all
completions: the callback is invoked once per failing completion (with that
failure's arguments, in completion order), plus a single argument-less
invocation when every one of the `todo` completions succeeds. -/
theorem allRun_pos {E D : Type} (evs : List (Completion E D)) :
    ∀ todo : Int, 0 < todo → (evs.length : Int) ≤ todo →
      allRun todo evs = failCalls evs ++
        (if (evs.length : Int) = todo ∧ evs.all isOkC = true then [none] else []) := by
  induction evs with
  | nil =>
    intro todo h0 _
    rw [if_neg (by rintro ⟨h, -⟩; simp at h; omega)]
    rfl
  | cons c rest ih =>
    intro todo h0 hlen
    simp only [List.length_cons, Nat.cast_add, Nat.cast_one] at hlen
    obtain ⟨ce, cd, cn⟩ := c
    rcases ce with _ | e
    · -- success completion
      by_cases h1 : todo = 1
      · subst h1
        have hrest : rest = [] := by
          have h2 : (rest.length : Int) ≤ 0 := by omega
          have h3 : rest.length = 0 := by omega
          exact List.length_eq_zero.mp h3
        subst hrest
        simp [allRun, failCalls, failArgs, isOkC]
      · have h2 : ¬(todo - 1 = 0) := by omega
        have hrw := ih (todo - 1) (by omega) (by omega)
        simp only [allRun, h2, if_false, List.nil_append, hrw]
        have hfc : failCalls (⟨none, cd, cn⟩ :: rest) = failCalls rest := by
          simp [failCalls, failArgs]
        rw [hfc]
        have hall : ((⟨none, cd, cn⟩ :: rest) : List (Completion E D)).all isOkC
            = rest.all isOkC := by
          simp [isOkC]
        rw [hall]
        congr 1
        by_cases h3 : (rest.length : Int) = todo - 1 ∧ rest.all isOkC = true
        · rw [if_pos h3, if_pos ⟨by simp only [List.length_cons]; push_cast; omega, h3.2⟩]
        · rw [if_neg h3,
            if_neg (by
              rintro ⟨ha, hb⟩
              simp only [List.length_cons] at ha
              push_cast at ha
              exact h3 ⟨by omega, hb⟩)]
    · -- failure completion: emit, then the counter is stuck at -1
      have hneg := allRun_nonpos rest (-1) (by omega)
      simp only [allRun, hneg]
      have hall : ((⟨some e, cd, cn⟩ :: rest) : List (Completion E D)).all isOkC = false := by
        simp [isOkC]
      rw [hall]
      simp [failCalls, failArgs]

/-- C1 counterexample.  Two concurrent checks that both fail: the fan-in in
`all` invokes the coordinator's continuation twice — the second failure is
not discarded, contradicting "the continuation is invoked exactly once". -/
theorem all_second_failure_reinvokes :
    allCalls 2 ([⟨some 1, 0, "a"⟩, ⟨some 2, 0, "b"⟩] : List (Completion Nat Nat)) =
        [some (1, 0, "a"), some (2, 0, "b")] ∧
      (allCalls 2 ([⟨some 1, 0, "a"⟩, ⟨some 2, 0, "b"⟩] : List (Completion Nat Nat))).length ≠ 1 := by
  refine ⟨rfl, ?_⟩
  decide

/-- C1 (amended).  For every list of `n` concurrent bucket checks and every
completion order: if all checks succeed the continuation is invoked exactly
once with no error; otherwise it is invoked with the first failure observed,
successful completions after a failure are discarded — but each further
*failing* completion invokes the continuation again with its own failure. -/
theorem all_fanin_first_failure {E D : Type} (n : Nat) (evs : List (Completion E D))
    (hn : 0 < n) (hlen : evs.length ≤ n) :
    allCalls n evs = failCalls evs ++
      (if evs.length = n ∧ evs.all isOkC = true then [none] else []) := by
  rw [allCalls, allRun_pos evs (n : Int) (by exact_mod_cast hn) (by exact_mod_cast hlen)]
  by_cases h : evs.length = n ∧ evs.all isOkC = true
  · rw [if_pos h, if_pos ⟨by exact_mod_cast h.1, h.2⟩]
  · rw [if_neg h, if_neg (by rintro ⟨ha, hb⟩; exact h ⟨by exact_mod_cast ha, hb⟩)]

/-- Witness for `all_fanin_first_failure`: two checks, both succeeding — a
single argument-less continuation call. -/
theorem all_fanin_first_failure_witness :
    allCalls 2 ([⟨none, 7, "a"⟩, ⟨none, 8, "b"⟩] : List (Completion Nat Nat)) =
      failCalls ([⟨none, 7, "a"⟩, ⟨none, 8, "b"⟩] : List (Completion Nat Nat)) ++
        (if ([⟨none, 7, "a"⟩, ⟨none, 8, "b"⟩] : List (Completion Nat Nat)).length = 2 ∧
            ([⟨none, 7, "a"⟩, ⟨none, 8, "b"⟩] : List (Completion Nat Nat)).all isOkC = true
          then [none] else []) :=
  all_fanin_first_failure 2 _ (by decide) (by decide)

/-! ## C2: the timeout wrapper -/

/-- After the wrapper has discharged (timer fired or continuation called),
both the `timeout` variable and the timer are gone, and no further event can
invoke the continuation. -/
theorem runTimeout_dead {E D : Type} (tm : E) (nl : D) (evs : List (TEvent E D)) :
    runTimeout tm nl ⟨false, false⟩ evs = [] := by
  induction evs with
  | nil => rfl
  | cons e rest ih =>
    cases e with
    | fire => simpa [runTimeout, stepTimeout] using ih
    | complete err data => simpa [runTimeout, stepTimeout] using ih

/-- C2.  With timeouts enabled the wrapper invokes the caller's continuation
at most once: if the deadline fires first the continuation receives the
distinguished `TimeoutError` (with `null` data) and every later event —
including the underlying call's completion — is silently discarded; if the
underlying call completes first its `(err, data)` is passed through once and
the timer is cancelled, so it can never fire.  With timeouts disabled the
original continuation is returned unmodified: every completion reaches it
directly. -/
theorem createTimeout_single_invocation {E D : Type} (tm : E) (nl : D) :
    (∀ evs : List (TEvent E D), (createTimeoutRun true tm nl evs).length ≤ 1) ∧
    (∀ rest : List (TEvent E D),
      createTimeoutRun true tm nl (TEvent.fire :: rest) = [(some tm, nl)]) ∧
    (∀ (err : Option E) (d : D) (rest : List (TEvent E D)),
      createTimeoutRun true tm nl (TEvent.complete err d :: rest) = [(err, d)]) ∧
    (∀ (err : Option E) (d : D) (rest : List (TEvent E D)),
      createTimeoutRun false tm nl (TEvent.complete err d :: rest) =
        (err, d) :: createTimeoutRun false tm nl rest) := by
  refine ⟨?_, ?_, ?_, ?_⟩
  · intro evs
    cases evs with
    | nil => simp [createTimeoutRun, runTimeout]
    | cons e rest =>
      cases e with
      | fire => simp [createTimeoutRun, runTimeout, stepTimeout, runTimeout_dead]
      | complete err data => simp [createTimeoutRun, runTimeout, stepTimeout, runTimeout_dead]
  · intro rest
    simp [createTimeoutRun, runTimeout, stepTimeout, runTimeout_dead]
  · intro err d rest
    simp [createTimeoutRun, runTimeout, stepTimeout, runTimeout_dead]
  · intro err d rest
    simp [createTimeoutRun]

/-! ## C9: rate-limit headers by mode -/

/-- C9.  `Bucket.headers` always includes `X-Rate-Limit: max` (first); in
`interval` mode it additionally includes `X-RateLimit-Remaining:
max(max - count, 0)` and `X-RateLimit-Reset: <window id>` from the drop
result, and those two keys appear exactly when the mode is `interval` (in
`continuous` mode they are omitted). -/
theorem headers_by_mode {Req Id : Type} (b : Bucket Req Id) (d : DropData) :
    (b.headers d).head? = some ("X-Rate-Limit", HVal.int b.max) ∧
    b.headers d = (if b.mode = Mode.interval then
        [("X-Rate-Limit", HVal.int b.max),
         ("X-RateLimit-Remaining", HVal.int (Max.max (b.max - d.count) 0)),
         ("X-RateLimit-Reset", HVal.str d.bucket)]
      else [("X-Rate-Limit", HVal.int b.max)]) ∧
    (("X-RateLimit-Remaining" ∈ (b.headers d).map Prod.fst) ↔ b.mode = Mode.interval) ∧
    (("X-RateLimit-Reset" ∈ (b.headers d).map Prod.fst) ↔ b.mode = Mode.interval) := by
  rcases hm : b.mode with _ | _
  · refine ⟨?_, ?_, ?_, ?_⟩ <;> simp [Bucket.headers, hm]
  · refine ⟨?_, ?_, ?_, ?_⟩ <;> simp [Bucket.headers, hm]

/-! ## C6: infrastructure errors are fail-open in both phases -/

/-- C6.  An infrastructure (non-rejection, non-timeout) Limiter error never
fails the request: in phase 1 `rateLimitResolve` logs it and continues with
the `limited` flag untouched, in phase 2 `preResponseResolve` logs it and
continues with no headers added; moreover (with the default continue-on-
timeout configuration) the only non-continue reply phase 1 can produce is
the 429 for a `Limitus.Rejected` error, and phase 2 always continues. -/
theorem infra_errors_fail_open {Req Id : Type} (cfg : Config Req)
    (hto : cfg.ontimeoutReply = ReplyAction.cont) :
    (∀ (oc l : Bool),
      rateLimitResolve cfg oc CheckCb.infra l = ⟨ReplyAction.cont, l, true, false, false⟩) ∧
    (∀ b : Bucket Req Id,
      preResponseResolve cfg b DropCb.infra = ⟨ReplyAction.cont, [], true⟩) ∧
    (∀ (oc : Bool) (cb : CheckCb) (l : Bool),
      (rateLimitResolve cfg oc cb l).reply ≠ ReplyAction.cont →
        ∃ rb, cb = CheckCb.rejected rb) ∧
    (∀ (b : Bucket Req Id) (cb : DropCb),
      (preResponseResolve cfg b cb).reply = ReplyAction.cont) := by
  refine ⟨?_, ?_, ?_, ?_⟩
  · intro oc l
    simp [rateLimitResolve, handleError]
  · intro b
    simp [preResponseResolve, handleError]
  · intro oc cb l hr
    cases cb with
    | ok => simp [rateLimitResolve] at hr
    | rejected rb => exact ⟨rb, rfl⟩
    | timedOut => simp [rateLimitResolve, handleError, hto] at hr
    | infra => simp [rateLimitResolve, handleError] at hr
  · intro b cb
    cases cb with
    | ok data => simp [preResponseResolve]
    | rejected => simp [preResponseResolve, handleError]
    | timedOut => simp [preResponseResolve, handleError, hto]
    | infra => simp [preResponseResolve, handleError]

/-- Witness for `infra_errors_fail_open`: the default configuration (with
`ontimeout = reply => reply.continue()`). -/
theorem infra_errors_fail_open_witness :
    (∀ (oc l : Bool),
      rateLimitResolve defaultConfig oc CheckCb.infra l =
        ⟨ReplyAction.cont, l, true, false, false⟩) ∧
    (∀ b : Bucket Nat Nat,
      preResponseResolve defaultConfig b DropCb.infra = ⟨ReplyAction.cont, [], true⟩) ∧
    (∀ (oc : Bool) (cb : CheckCb) (l : Bool),
      (rateLimitResolve defaultConfig oc cb l).reply ≠ ReplyAction.cont →
        ∃ rb, cb = CheckCb.rejected rb) ∧
    (∀ (b : Bucket Nat Nat) (cb : DropCb),
      (preResponseResolve defaultConfig b cb).reply = ReplyAction.cont) :=
  infra_errors_fail_open defaultConfig rfl

/-- Witness for `codeMatches_wildcard_rule`: evaluated at `p = "2xx"`,
`c = 204`. -/
theorem codeMatches_wildcard_rule_witness :
    (codeMatches "2xx" (toString 204) = true ↔
      ∀ k, k < 3 →
        "2xx".toList.get? k = some 'x' ∨
          "2xx".toList.get? k = (toString 204).toList.get? k) ∧
    (∀ (Req Id : Type) (b : Bucket Req Id),
      b.matches 204 = true ↔ ∃ q ∈ b.codes, codeMatches q (toString 204) = true) ∧
    (∀ (Req Id : Type) (o : BucketOptions Req Id), o.codes = none →
      (Bucket.make o).codes = ["2xx", "3xx"]) :=
  codeMatches_wildcard_rule "2xx" 204 (by decide) (by decide) (by omega)

/-! ## C7: phase-1 rejection — cancel sentinel vs 429 -/

/-- C7.  When a phase-1 check reports `Limitus.Rejected`: if `onLimit` returns
the `cancel` sentinel the request continues normally with `limited` left
`false` (phase 2 will still settle); otherwise `limited` is set `true` and the
request fails with 429 carrying `X-RateLimit-Remaining: 0` and
`X-RateLimit-Reset: data.bucket` (header inclusion enabled). -/
theorem rejection_cancel_or_429 {Req : Type} (cfg : Config Req)
    (hinc : cfg.includeHeaders = true) (rb : String) :
    rateLimitResolve cfg true (CheckCb.rejected rb) false =
      ⟨ReplyAction.cont, false, false, false, true⟩ ∧
    rateLimitResolve cfg false (CheckCb.rejected rb) false =
      ⟨ReplyAction.respond429
          [("X-RateLimit-Remaining", HVal.int 0), ("X-RateLimit-Reset", HVal.str rb)],
        true, false, false, true⟩ := by
  refine ⟨rfl, ?_⟩
  simp [rateLimitResolve, addHeaders, hinc]

/-- Witness for `rejection_cancel_or_429`: the default configuration and the
reset token `"w"`. -/
theorem rejection_cancel_or_429_witness :
    rateLimitResolve defaultConfig true (CheckCb.rejected "w") false =
      ⟨ReplyAction.cont, false, false, false, true⟩ ∧
    rateLimitResolve defaultConfig false (CheckCb.rejected "w") false =
      ⟨ReplyAction.respond429
          [("X-RateLimit-Remaining", HVal.int 0), ("X-RateLimit-Reset", HVal.str "w")],
        true, false, false, true⟩ :=
  rejection_cancel_or_429 defaultConfig rfl "w"

/-! ## C8: route resolution -/

/-- Lemma: `resolveRouteOpts` characterized by the three route-configuration
projections: when the route leaves limiting enabled the defaults are appended
and `enabled` is recomputed from the exclusion predicates and the (doubly
counted) bucket count; when the route disables limiting the options pass
through with no defaults appended. -/
theorem resolveRouteOpts_eq {Req : Type} (cfg : Config Req) (route : RouteConfig Req)
    (req : Req) :
    resolveRouteOpts cfg route req =
      if routeEnabledOf route = true then
        ⟨!(cfg.exclude req || routeExcludeOf route req) &&
            decide ((routeBucketsOf route ++ cfg.default).length + cfg.default.length > 0),
          routeBucketsOf route ++ cfg.default, routeExcludeOf route⟩
      else ⟨false, routeBucketsOf route, routeExcludeOf route⟩ := by
  rcases route with _ | s | l | o
  · simp [resolveRouteOpts, routeEnabledOf, routeBucketsOf, routeExcludeOf]
  · simp [resolveRouteOpts, routeEnabledOf, routeBucketsOf, routeExcludeOf]
  · simp [resolveRouteOpts, routeEnabledOf, routeBucketsOf, routeExcludeOf]
  · rcases he : o.enabled with _ | b
    · simp [resolveRouteOpts, routeEnabledOf, routeBucketsOf, routeExcludeOf, he]
    · cases b
      · simp [resolveRouteOpts, routeEnabledOf, routeBucketsOf, routeExcludeOf, he]
      · simp [resolveRouteOpts, routeEnabledOf, routeBucketsOf, routeExcludeOf, he]

/-- C8.  Route resolution puts the route-specific buckets ahead of the
appended global defaults; `enabled` is `true` iff the route did not set
`enabled: false`, neither the global nor the route `exclude` predicate holds,
and the combined bucket list is non-empty; and when `enabled` is `false` the
admission handler attaches no state and issues no checks, and the settlement
handler (with no state attached) performs no drops and adds no headers. -/
theorem route_resolution {Req Id : Type} (cfg : Config Req) (route : RouteConfig Req)
    (req : Req) :
    (routeEnabledOf route = true →
      (resolveRouteOpts cfg route req).buckets = routeBucketsOf route ++ cfg.default) ∧
    ((resolveRouteOpts cfg route req).enabled = true ↔
      routeEnabledOf route = true ∧ cfg.exclude req = false ∧
        routeExcludeOf route req = false ∧ routeBucketsOf route ++ cfg.default ≠ []) ∧
    (∀ (registry : String → Option (Bucket Req Id)) (status : Nat)
        (dropCb : String → Option Id → DropCb),
      (resolveRouteOpts cfg route req).enabled = false →
        phase1Handler registry cfg route req = Except.ok none ∧
        onPreResponse registry cfg (none : Option (Info Id)) status dropCb =
          Except.ok ⟨[], [], ReplyAction.cont, false⟩) := by
  refine ⟨?_, ?_, ?_⟩
  · intro hen
    rw [resolveRouteOpts_eq, if_pos hen]
  · rw [resolveRouteOpts_eq]
    by_cases hen : routeEnabledOf route = true
    · rw [if_pos hen]
      simp only [hen, true_and]
      simp only [Bool.and_eq_true, Bool.not_eq_true', Bool.or_eq_false_iff,
        decide_eq_true_eq]
      constructor
      · rintro ⟨⟨ha, hb⟩, hc⟩
        refine ⟨ha, hb, ?_⟩
        intro hnil
        rcases List.append_eq_nil.mp hnil with ⟨h1, h2⟩
        rw [hnil, h2] at hc
        simp at hc
      · rintro ⟨ha, hb, hne⟩
        refine ⟨⟨ha, hb⟩, ?_⟩
        have hpos := List.length_pos.mpr hne
        omega
    · rw [if_neg hen]
      simp only [Bool.false_eq_true, false_iff]
      rintro ⟨h, -⟩
      exact hen h
  · intro registry status dropCb hdis
    constructor
    · unfold phase1Handler
      rw [if_pos hdis]
    · rfl

/-- Witness for `route_resolution`'s disabled conjunct: a route configuration
`{enabled: false}` over the default global options. -/
theorem route_resolution_witness :
    (routeEnabledOf disabledRoute = true →
      (resolveRouteOpts defaultConfig
          disabledRoute 0).buckets =
        routeBucketsOf disabledRoute ++
          defaultConfig.default) ∧
    ((resolveRouteOpts defaultConfig
        disabledRoute 0).enabled = true ↔
      routeEnabledOf disabledRoute = true ∧
        defaultConfig.exclude 0 = false ∧
        routeExcludeOf disabledRoute 0 = false ∧
        routeBucketsOf disabledRoute ++
          defaultConfig.default ≠ []) ∧
    (∀ (registry : String → Option (Bucket Nat Nat)) (status : Nat)
        (dropCb : String → Option Nat → DropCb),
      (resolveRouteOpts defaultConfig
          disabledRoute 0).enabled = false →
        phase1Handler registry defaultConfig
            disabledRoute 0 = Except.ok none ∧
        onPreResponse registry defaultConfig (none : Option (Info Nat)) status dropCb =
          Except.ok ⟨[], [], ReplyAction.cont, false⟩) :=
  route_resolution defaultConfig disabledRoute 0

/-! ## C3: exactly-once settlement accounting -/

/-- When every name in the scanned list is registered, `matchBucket` cannot
throw. -/
theorem matchBucket_isOk {Req Id : Type} (registry : String → Option (Bucket Req Id))
    (status : Nat) :
    ∀ (names : List String) (ids : List Id), (∀ n ∈ names, (registry n).isSome) →
      ∃ o, matchBucket registry status names ids = Except.ok o := by
  intro names
  induction names with
  | nil => intro ids _; exact ⟨none, rfl⟩
  | cons n rest ih =>
    intro ids hreg
    obtain ⟨b, hb⟩ := Option.isSome_iff_exists.mp (hreg n (List.mem_cons_self n rest))
    by_cases hm : b.matches status = true
    · exact ⟨some (b, ids.head?), by simp [matchBucket, hb, hm]⟩
    · obtain ⟨o, ho⟩ := ih ids.tail fun m hmem => hreg m (List.mem_cons_of_mem n hmem)
      exact ⟨o, by simp [matchBucket, hb, hm, ho]⟩

/-- C3.  If no Request Limiting State is attached, or phase 1 rejected the
request (`limited == true`), phase 2 performs zero `drop` calls and continues
the response unchanged (no headers added, nothing logged); and any run of the
settlement handler performs at most one `drop` call, against at most one
bucket. -/
theorem phase2_exactly_once {Req Id : Type} (registry : String → Option (Bucket Req Id))
    (cfg : Config Req) (status : Nat) (dropCb : String → Option Id → DropCb) :
    (onPreResponse registry cfg (none : Option (Info Id)) status dropCb =
      Except.ok ⟨[], [], ReplyAction.cont, false⟩) ∧
    (∀ info : Info Id, info.limited = true →
      (∀ n ∈ info.buckets, (registry n).isSome) →
      onPreResponse registry cfg (some info) status dropCb =
        Except.ok ⟨[], [], ReplyAction.cont, false⟩) ∧
    (∀ (state : Option (Info Id)) (r : Phase2Run Id),
      onPreResponse registry cfg state status dropCb = Except.ok r →
        r.drops.length ≤ 1) := by
  refine ⟨rfl, ?_, ?_⟩
  · intro info hlim hreg
    obtain ⟨o, ho⟩ := matchBucket_isOk registry status info.buckets info.ids hreg
    rcases o with _ | ⟨b, oid⟩
    · simp [onPreResponse, ho]
    · simp [onPreResponse, ho, hlim]
  · intro state r h
    rcases state with _ | info
    · simp only [onPreResponse, Except.ok.injEq] at h
      subst h
      simp
    · rcases ho : matchBucket registry status info.buckets info.ids with e | o
      · simp [onPreResponse, ho] at h
      · rcases o with _ | ⟨b, oid⟩
        · simp only [onPreResponse, ho, Except.ok.injEq] at h
          subst h
          simp
        · rcases hlim : info.limited with _ | _
          · simp only [onPreResponse, ho, hlim, if_false, Bool.false_eq_true,
              Except.ok.injEq] at h
            subst h
            simp
          · simp only [onPreResponse, ho, hlim, if_true, Except.ok.injEq] at h
            subst h
            simp

/-- Witness for `phase2_exactly_once`: a limited request over the registry
holding bucket `a`. -/
theorem phase2_exactly_once_witness :
    onPreResponse registryA defaultConfig (some ⟨["a"], [5], true⟩) 200
        (fun _ _ => DropCb.ok ⟨"w", 1⟩) =
      Except.ok ⟨[], [], ReplyAction.cont, false⟩ ∧
    ∀ r : Phase2Run Nat,
      onPreResponse registryA defaultConfig (some ⟨["a"], [5], true⟩) 200
          (fun _ _ => DropCb.ok ⟨"w", 1⟩) = Except.ok r →
        r.drops.length ≤ 1 := by
  constructor
  · exact (phase2_exactly_once registryA defaultConfig 200
      (fun _ _ => DropCb.ok ⟨"w", 1⟩)).2.1 ⟨["a"], [5], true⟩ rfl
      (by intro n hn; simp only [List.mem_singleton] at hn; subst hn; simp [registryA])
  · intro r hr
    exact (phase2_exactly_once registryA defaultConfig 200
      (fun _ _ => DropCb.ok ⟨"w", 1⟩)).2.2 (some ⟨["a"], [5], true⟩) r hr

/-! ## C4: settlement selects the first matching bucket -/

/-- Lemma: `matchBucket` refines the spec's first-match selection rule: under a
registry agreeing with `bs` on `names` (same order) and the phase-1 length
invariant, the scan returns exactly `specSettle` of the zipped bucket/identity
pairs. -/
theorem matchBucket_eq_specSettle {Req Id : Type}
    (registry : String → Option (Bucket Req Id)) (status : Nat) :
    ∀ {names : List String} {bs : List (Bucket Req Id)},
      List.Forall₂ (fun n b => registry n = some b) names bs →
      ∀ ids : List Id, ids.length = names.length →
      matchBucket registry status names ids =
        Except.ok ((specSettle (bs.zip ids) status).map fun p => (p.1, some p.2)) := by
  intro names bs hf
  induction hf with
  | nil => intro ids _; rfl
  | @cons n b ns bs' hnb htail ih =>
    intro ids hlen
    rcases ids with _ | ⟨i, is⟩
    · simp at hlen
    · simp only [List.length_cons, Nat.succ.injEq] at hlen
      by_cases hm : b.matches status = true
      · simp [matchBucket, hnb, hm, specSettle]
      · simp only [matchBucket, hnb, Bool.not_eq_true] at hm ⊢
        rw [hm]
        simp only [Bool.false_eq_true, if_false, List.tail_cons]
        rw [ih is hlen]
        congr 1
        simp only [List.zip_cons_cons, specSettle]
        rw [List.find?_cons_of_neg _ (by simp [hm])]

/-- C4.  With a Request Limiting State attached and `limited == false`, phase
2 settles against the first bucket (in resolved priority order) whose codes
match the response status, paired with the identity at the same index; if no
bucket matches, no `drop` call is made and the response headers are
unchanged. -/
theorem settle_selects_first_match {Req Id : Type}
    (registry : String → Option (Bucket Req Id)) (status : Nat)
    (names : List String) (bs : List (Bucket Req Id)) (ids : List Id)
    (hf : List.Forall₂ (fun n b => registry n = some b) names bs)
    (hlen : ids.length = names.length) :
    matchBucket registry status names ids =
      Except.ok ((specSettle (bs.zip ids) status).map fun p => (p.1, some p.2)) ∧
    (∀ (cfg : Config Req) (dropCb : String → Option Id → DropCb),
      specSettle (bs.zip ids) status = none →
        onPreResponse registry cfg (some ⟨names, ids, false⟩) status dropCb =
          Except.ok ⟨[], [], ReplyAction.cont, false⟩) ∧
    (∀ (cfg : Config Req) (dropCb : String → Option Id → DropCb)
        (b : Bucket Req Id) (i : Id),
      specSettle (bs.zip ids) status = some (b, i) →
        ∃ r, onPreResponse registry cfg (some ⟨names, ids, false⟩) status dropCb =
            Except.ok r ∧ r.drops = [(b.name, some i)]) := by
  have hmb := matchBucket_eq_specSettle registry status hf ids hlen
  refine ⟨hmb, ?_, ?_⟩
  · intro cfg dropCb hnone
    rw [hnone] at hmb
    simp [onPreResponse, hmb]
  · intro cfg dropCb b i hsome
    rw [hsome] at hmb
    refine ⟨⟨[(b.name, some i)],
      (preResponseResolve cfg b (dropCb b.name (some i))).added,
      (preResponseResolve cfg b (dropCb b.name (some i))).reply,
      (preResponseResolve cfg b (dropCb b.name (some i))).logged⟩, ?_, rfl⟩
    simp [onPreResponse, hmb]

/-- Witness for `settle_selects_first_match`: bucket `a` (codes 2xx/3xx) with
identity `5`, settling a 200 response. -/
theorem settle_selects_first_match_witness :
    matchBucket registryA 200 ["a"] [5] =
      Except.ok ((specSettle ([bucketA].zip [5]) 200).map fun p => (p.1, some p.2)) ∧
    (∀ (cfg : Config Nat) (dropCb : String → Option Nat → DropCb),
      specSettle ([bucketA].zip [5]) 200 = none →
        onPreResponse registryA cfg (some ⟨["a"], [5], false⟩) 200 dropCb =
          Except.ok ⟨[], [], ReplyAction.cont, false⟩) ∧
    (∀ (cfg : Config Nat) (dropCb : String → Option Nat → DropCb)
        (b : Bucket Nat Nat) (i : Nat),
      specSettle ([bucketA].zip [5]) 200 = some (b, i) →
        ∃ r, onPreResponse registryA cfg (some ⟨["a"], [5], false⟩) 200 dropCb =
            Except.ok r ∧ r.drops = [(b.name, some i)]) :=
  settle_selects_first_match registryA 200 ["a"] [bucketA] [5]
    (List.forall₂_cons.mpr ⟨by simp [registryA], List.Forall₂.nil⟩) rfl

/-! ## C10: unregistered bucket names fault the admission phase -/

/-- A name missing from the registry makes the identity computation throw. -/
theorem computeIds_error {Req Id : Type} (registry : String → Option (Bucket Req Id))
    (req : Req) :
    ∀ names : List String, (∃ n ∈ names, registry n = none) →
      computeIds registry req names = Except.error () := by
  intro names
  induction names with
  | nil => rintro ⟨n, hn, -⟩; simp at hn
  | cons m rest ih =>
    rintro ⟨n, hn, hmiss⟩
    rcases List.mem_cons.mp hn with h | h
    · subst h
      simp [computeIds, hmiss]
    · rcases hr : registry m with _ | b
      · simp [computeIds, hr]
      · simp [computeIds, hr, ih ⟨n, h, hmiss⟩, Except.map]

/-- C10.  Route configurations are not validated against the bucket registry:
for a request whose resolved (enabled) bucket list contains an unconfigured
name, the admission handler's `buckets[b].identify(req)` faults
(`Except.error`) — the request is neither skipped nor admitted fail-open. -/
theorem unregistered_bucket_faults {Req Id : Type}
    (registry : String → Option (Bucket Req Id)) (cfg : Config Req)
    (route : RouteConfig Req) (req : Req)
    (hen : (resolveRouteOpts cfg route req).enabled = true)
    (hmiss : ∃ n ∈ (resolveRouteOpts cfg route req).buckets, registry n = none) :
    phase1Handler registry cfg route req = Except.error () ∧
    phase1Handler registry cfg route req ≠ Except.ok none ∧
    ∀ info : Info Id, phase1Handler registry cfg route req ≠ Except.ok (some info) := by
  have herr : phase1Handler registry cfg route req = Except.error () := by
    unfold phase1Handler
    rw [if_neg (by simp [hen])]
    rw [computeIds_error registry req _ hmiss]
  exact ⟨herr, by simp [herr], by simp [herr]⟩

/-- Witness for `unregistered_bucket_faults`: an empty registry with the
global default bucket list `["g"]`. -/
theorem unregistered_bucket_faults_witness :
    phase1Handler (fun _ => (none : Option (Bucket Nat Nat))) ghostConfig
        RouteConfig.absent 0 = Except.error () ∧
    phase1Handler (fun _ => (none : Option (Bucket Nat Nat))) ghostConfig
        RouteConfig.absent 0 ≠ Except.ok none ∧
    ∀ info : Info Nat,
      phase1Handler (fun _ => (none : Option (Bucket Nat Nat))) ghostConfig
          RouteConfig.absent 0 ≠ Except.ok (some info) :=
  unregistered_bucket_faults (fun _ => none) ghostConfig RouteConfig.absent 0
    rfl ⟨"g", by simp [resolveRouteOpts, ghostConfig], rfl⟩

end Yaral
